import Mathlib

/-!
Shallow embedding of the ETL pipeline in `src/etl_pipeline.py` and
`src/util.py`: flat-file extraction, partition management for the
per-country partitioned staging/curated tables, the staging load, and
the incremental merge. Effects on the database are modelled as explicit
state (the staging table's rows, the partition catalog, the curated
table's rows); points where the Python code can hit a database error are
modelled by explicit Boolean failure inputs.

Python's string operations (`str.strip`, `str.lower`, `str.split`,
`str.startswith`) are embedded as structurally recursive functions over
the character list of a `String`, so that every definition evaluates
inside the kernel.
-/

namespace ETL

/-! ### Python string primitives -/

/-- `s.strip()`: remove leading and trailing whitespace. -/
def pyStrip (s : String) : String :=
  String.mk (((s.data.dropWhile Char.isWhitespace).reverse.dropWhile Char.isWhitespace).reverse)

/-- `s.lower()`: lower-case every character. -/
def pyLower (s : String) : String :=
  String.mk (s.data.map Char.toLower)

/-- `s.split(sep)` for a one-character separator, on character lists.
`splitOnChar sep []` is `[[]]`, matching Python's `"".split(sep) == [""]`. -/
def splitOnChar (sep : Char) : List Char → List (List Char)
  | [] => [[]]
  | c :: cs =>
    match splitOnChar sep cs with
    | [] => if c = sep then [[], [c]] else [[c]]
    | h :: t => if c = sep then [] :: h :: t else (c :: h) :: t

/-- `s.startswith(pre)` for a concrete character-list prefix. -/
def startsWithChars (pre : List Char) (s : String) : Bool :=
  pre.isPrefixOf s.data

/-! ### Extraction (`ETLPipeline.extract`, src/etl_pipeline.py lines 8-38)

A line starting with `H|` contributes header fields, a line starting
with `D|` contributes a data row; each is stripped and split on the pipe
character, dropping the prefix field. The loop overwrites `header_line`,
so the last `H|` line wins. `pd.DataFrame(data_rows, columns=header_line)`
pads ragged rows with NaN up to the widest row and raises when that
width differs from the number of header fields; NaN cells are modelled
as `none`. The side write `data.to_csv('trans/data.csv')` is a
file-system effect with no bearing on the returned batch and is omitted.
-/

/-- A header line of the input file starts with the two characters `H|`. -/
def isHeaderLine (l : String) : Bool := startsWithChars ['H', '|'] l

/-- A data line of the input file starts with the two characters `D|`. -/
def isDataLine (l : String) : Bool := startsWithChars ['D', '|'] l

/-- `line.strip().split('|')[1:]` from the Python source. -/
def lineFields (l : String) : List String :=
  ((splitOnChar '|' (pyStrip l).data).map String.mk).drop 1

/-- The tabular batch returned by `extract`: the header fields in order,
and one cell list per data row (`none` is a NaN cell). -/
structure Batch where
  header : List String
  rows : List (List (Option String))
  deriving DecidableEq, Repr

/-- Pad a row with NaN cells (`none`) up to width `w`, as pandas does for
ragged list-of-lists input. -/
def padTo (w : Nat) (r : List String) : List (Option String) :=
  r.map some ++ List.replicate (w - r.length) none

/-- `ETLPipeline.extract` on the lines of the source file. `.error` marks
the exceptions the Python raises: the explicit `ValueError` when no `H|`
line exists, and the error pandas raises when the widest data row does
not match the header's field count. -/
def extract (lines : List String) : Except String Batch :=
  match (lines.filter isHeaderLine).getLast? with
  | none => .error "No header found in file"
  | some h =>
    let header := lineFields h
    let draws := (lines.filter isDataLine).map lineFields
    if draws.isEmpty then
      .ok { header := header, rows := [] }
    else
      let width := (draws.map List.length).foldr max 0
      if width = header.length then
        .ok { header := header, rows := draws.map (padTo width) }
      else
        .error "column count mismatch"

theorem foldr_max_const (c : Nat) (xs : List Nat) (hne : xs ≠ [])
    (hall : ∀ x ∈ xs, x = c) : xs.foldr max 0 = c := by
  induction xs with
  | nil => exact absurd rfl hne
  | cons x t ih =>
    cases t with
    | nil =>
      simp only [List.foldr, Nat.max_zero]
      exact hall x (List.mem_cons_self x [])
    | cons y u =>
      have hx : x = c := hall x (List.mem_cons_self x (y :: u))
      have ht : (y :: u).foldr max 0 = c :=
        ih (by simp) (fun z hz => hall z (List.mem_cons_of_mem x hz))
      simp only [List.foldr] at ht ⊢
      rw [hx, ht, Nat.max_self]

theorem extract_eq_of_getLast (lines : List String) (h : String)
    (hlast : (lines.filter isHeaderLine).getLast? = some h) :
    extract lines =
      (let header := lineFields h
       let draws := (lines.filter isDataLine).map lineFields
       if draws.isEmpty then
         .ok { header := header, rows := [] }
       else
         let width := (draws.map List.length).foldr max 0
         if width = header.length then
           .ok { header := header, rows := draws.map (padTo width) }
         else
           .error "column count mismatch") := by
  unfold extract
  rw [hlast]

/-- C8: for a file whose header lines end with `h` and all of whose data
rows have exactly as many fields as `h`, extraction succeeds, the batch
has one row per `D|` line, and its column order is `h`'s field order.
For a valid input file (exactly one `H|` line), `h` is that line. -/
theorem extract_valid_batch_shape (lines : List String) (h : String)
    (hlast : (lines.filter isHeaderLine).getLast? = some h)
    (hrows : ∀ l ∈ lines.filter isDataLine,
      (lineFields l).length = (lineFields h).length) :
    ∃ b, extract lines = .ok b ∧
      b.rows.length = (lines.filter isDataLine).length ∧
      b.header = lineFields h := by
  rw [extract_eq_of_getLast lines h hlast]
  by_cases hd : lines.filter isDataLine = []
  · exact ⟨{ header := lineFields h, rows := [] }, by simp [hd], by simp [hd], rfl⟩
  · have hne : (lines.filter isDataLine).map lineFields ≠ [] := by
      simpa using hd
    have hw : ((((lines.filter isDataLine).map lineFields).map List.length).foldr max 0)
        = (lineFields h).length := by
      refine foldr_max_const _ _ (by simpa using hd) ?_
      intro x hx
      rcases List.mem_map.1 hx with ⟨fs, hfs, rfl⟩
      rcases List.mem_map.1 hfs with ⟨l, hl, rfl⟩
      exact hrows l hl
    refine ⟨{ header := lineFields h,
              rows := ((lines.filter isDataLine).map lineFields).map
                (padTo ((((lines.filter isDataLine).map lineFields).map
                  List.length).foldr max 0)) }, ?_, ?_, rfl⟩
    · have hw2 : List.foldr max 0 (List.map (List.length ∘ lineFields)
          (lines.filter isDataLine)) = (lineFields h).length := by
        simpa [List.map_map] using hw
      simp [List.isEmpty_iff, hne, hw, hw2]
    · simp


/-- Witness for `extract_valid_batch_shape` at a concrete valid file
with one header line, two data lines and one ignored line. -/
theorem extract_valid_batch_shape_witness :
    ∃ b, extract ["H|Customer_Name|Country", "D|A| India ", "note", "D|B|USA"]
        = .ok b ∧
      b.rows.length = ((["H|Customer_Name|Country", "D|A| India ", "note",
        "D|B|USA"] : List String).filter isDataLine).length ∧
      b.header = lineFields "H|Customer_Name|Country" :=
  extract_valid_batch_shape
    ["H|Customer_Name|Country", "D|A| India ", "note", "D|B|USA"]
    "H|Customer_Name|Country" (by decide) (by decide)

/-- C10, counterexample: a file with two `H|` lines on which `extract`
does raise. The last header has one field but the data row has two, so
the `pd.DataFrame` construction fails; `extract` is not error-free on
every multi-header file. -/
theorem extract_multi_header_can_error :
    extract ["H|a|b", "H|c", "D|1|2"] = .error "column count mismatch" := rfl

/-- C10, amended: on a file with more than one `H|` line, `extract` does
not treat the extra headers as an error; it uses the last `H|` line as
the header, and it succeeds whenever the data rows' field counts fit
that last header (no data rows, or widest data row equal to its field
count). -/
theorem extract_last_header_wins (lines : List String) (h : String)
    (_hmulti : 1 < (lines.filter isHeaderLine).length)
    (hlast : (lines.filter isHeaderLine).getLast? = some h)
    (hok : lines.filter isDataLine = [] ∨
      (((lines.filter isDataLine).map lineFields).map List.length).foldr max 0
        = (lineFields h).length) :
    ∃ b, extract lines = .ok b ∧ b.header = lineFields h ∧
      b.rows.length = (lines.filter isDataLine).length := by
  rw [extract_eq_of_getLast lines h hlast]
  rcases hok with hd | hw
  · exact ⟨{ header := lineFields h, rows := [] }, by simp [hd], rfl, by simp [hd]⟩
  · by_cases hd : lines.filter isDataLine = []
    · exact ⟨{ header := lineFields h, rows := [] }, by simp [hd], rfl, by simp [hd]⟩
    · have hne : (lines.filter isDataLine).map lineFields ≠ [] := by
        simpa using hd
      refine ⟨{ header := lineFields h,
                rows := ((lines.filter isDataLine).map lineFields).map
                  (padTo ((((lines.filter isDataLine).map lineFields).map
                    List.length).foldr max 0)) }, ?_, rfl, ?_⟩
      · have hw2 : List.foldr max 0 (List.map (List.length ∘ lineFields)
            (lines.filter isDataLine)) = (lineFields h).length := by
          simpa [List.map_map] using hw
        simp [List.isEmpty_iff, hne, hw, hw2]
      · simp

/-- Witness for `extract_last_header_wins` at a concrete file with two
header lines whose data row fits the last header. -/
theorem extract_last_header_wins_witness :
    ∃ b, extract ["H|a", "H|x|y", "D|1|2"] = .ok b ∧
      b.header = lineFields "H|x|y" ∧
      b.rows.length = ((["H|a", "H|x|y", "D|1|2"] : List String).filter
        isDataLine).length :=
  extract_last_header_wins ["H|a", "H|x|y", "D|1|2"] "H|x|y"
    (by decide) (by decide) (Or.inr (by decide))

/-! ### Partition manager (`check_and_create_partition`, src/util.py lines 18-70)

The function connects, strips the country, derives the partition name
`f"{table_name}_{country.lower()}"`, checks the catalog with
`to_regclass`, and if absent creates the partition with the stripped
country as the `FOR VALUES IN` bound, committing the DDL. The database
catalog is modelled as a list of partitions (schema, name, bound), the
two points where the database can fail as Booleans: `connOk` is whether
`engine.raw_connection()`/`conn.cursor()` succeed, `ddlOk` whether the
`CREATE TABLE ... PARTITION OF` statement succeeds. When `connOk` is
false the local variables `conn` and `cur` are never bound, so both the
`except` block (`conn.rollback()`) and the `finally` block
(`cur.close()`) raise `UnboundLocalError`: the call raises instead of
returning `False`. -/

/-- One physical partition in the database catalog: its schema, relation
name, and the single country value of its `FOR VALUES IN` bound. -/
structure Partition where
  schema : String
  name : String
  bound : String
  deriving DecidableEq, Repr

/-- How a call to `check_and_create_partition` ends: a normal `return`
of a Boolean, or an exception escaping the function. -/
inductive PartCallResult where
  | returned (ok : Bool)
  | raised
  deriving DecidableEq, Repr

/-- Observable outcome of one `check_and_create_partition` call: its
result, whether it issued the CREATE-partition DDL, and the catalog
afterwards. -/
structure PartCallOut where
  result : PartCallResult
  ddlIssued : Bool
  catalog : List Partition
  deriving DecidableEq, Repr

/-- The partition name `f"{table_name}_{country.lower()}"` computed on
the already-stripped country. -/
def partitionNameOf (tableName country : String) : String :=
  tableName ++ "_" ++ pyLower (pyStrip country)

/-- `check_and_create_partition(country, db_uri, table_name, schema)`. -/
def check_and_create_partition (country tableName schema : String)
    (connOk ddlOk : Bool) (cat : List Partition) : PartCallOut :=
  if !connOk then
    { result := .raised, ddlIssued := false, catalog := cat }
  else
    let c := pyStrip country
    let pname := tableName ++ "_" ++ pyLower c
    if cat.any (fun p => p.schema == schema && p.name == pname) then
      { result := .returned true, ddlIssued := false, catalog := cat }
    else if ddlOk then
      { result := .returned true, ddlIssued := true,
        catalog := { schema := schema, name := pname, bound := c } :: cat }
    else
      { result := .returned false, ddlIssued := true, catalog := cat }

/-- C2: the partition name folds case (`.strip().lower()`), but the
bound value only strips: `" India "` creates `customer_info_india`
bound to `'India'`, and the later call for `"india"` short-circuits on
that same name without ever creating a partition bound to `'india'`,
whose value differs from the bound `'India'`. Rows carrying `"india"`
(the staged value is only stripped, never lower-cased) therefore have no
partition accepting them. -/
theorem check_and_create_partition_case_variant_bounds :
    (check_and_create_partition " India " "customer_info" "stg" true true []).catalog
      = [{ schema := "stg", name := "customer_info_india", bound := "India" }]
  ∧ (check_and_create_partition "india" "customer_info" "stg" true true
      [{ schema := "stg", name := "customer_info_india", bound := "India" }]).ddlIssued
      = false
  ∧ (check_and_create_partition "india" "customer_info" "stg" true true
      [{ schema := "stg", name := "customer_info_india", bound := "India" }]).catalog
      = [{ schema := "stg", name := "customer_info_india", bound := "India" }]
  ∧ pyStrip "india" ≠ ("India" : String) := by
  refine ⟨rfl, rfl, rfl, ?_⟩
  decide

/-- C3: when establishing the connection itself fails, the call does not
return `False`: the exception escapes (`conn`/`cur` are unbound in the
`except` and `finally` blocks), contradicting the claim and the
function's own docstring. -/
theorem check_and_create_partition_conn_failure_raises :
    (check_and_create_partition " India " "customer_info" "stg" false true
      []).result = .raised := rfl

/-- C6: when both calls reach the database, a second call with any key
of the same normalized (stripped, lower-cased) value returns `True`,
issues no DDL regardless of whether DDL could succeed, leaves the
catalog unchanged, and the catalog holds exactly one partition of that
derived name (given the catalog, like a real one, held at most one
beforehand). -/
theorem check_and_create_partition_idempotent
    (country country2 tableName schema : String) (cat : List Partition)
    (ddlOk2 : Bool)
    (hnorm : pyLower (pyStrip country) = pyLower (pyStrip country2))
    (hcount : (cat.filter (fun p => p.schema == schema &&
        p.name == partitionNameOf tableName country)).length ≤ 1) :
    ((check_and_create_partition country2 tableName schema true ddlOk2
        (check_and_create_partition country tableName schema true true
          cat).catalog).result = .returned true)
  ∧ ((check_and_create_partition country2 tableName schema true ddlOk2
        (check_and_create_partition country tableName schema true true
          cat).catalog).ddlIssued = false)
  ∧ ((check_and_create_partition country2 tableName schema true ddlOk2
        (check_and_create_partition country tableName schema true true
          cat).catalog).catalog
      = (check_and_create_partition country tableName schema true true
          cat).catalog)
  ∧ (((check_and_create_partition country tableName schema true true
        cat).catalog.filter (fun p => p.schema == schema &&
          p.name == partitionNameOf tableName country)).length = 1) := by
  have hpn : tableName ++ "_" ++ pyLower (pyStrip country2)
      = tableName ++ "_" ++ pyLower (pyStrip country) := by rw [hnorm]
  by_cases hex : cat.any (fun p => p.schema == schema &&
      p.name == tableName ++ "_" ++ pyLower (pyStrip country)) = true
  · have hone : (cat.filter (fun p => p.schema == schema &&
        p.name == tableName ++ "_" ++ pyLower (pyStrip country))).length = 1 := by
      rcases List.any_eq_true.1 hex with ⟨p, hp, hpred⟩
      have hmem : p ∈ cat.filter (fun p => p.schema == schema &&
          p.name == tableName ++ "_" ++ pyLower (pyStrip country)) :=
        List.mem_filter.2 ⟨hp, hpred⟩
      have h1 : 0 < (cat.filter (fun p => p.schema == schema &&
          p.name == tableName ++ "_" ++ pyLower (pyStrip country))).length :=
        List.length_pos.2 (List.ne_nil_of_mem hmem)
      have h2 := hcount
      simp only [partitionNameOf] at h2
      omega
    refine ⟨?_, ?_, ?_, ?_⟩ <;>
      simp [check_and_create_partition, partitionNameOf, hex, hpn, hone]
  · have hexf : cat.any (fun p => p.schema == schema &&
        p.name == tableName ++ "_" ++ pyLower (pyStrip country)) = false :=
      Bool.eq_false_iff.2 hex
    have hfilter : cat.filter (fun p => p.schema == schema &&
        p.name == tableName ++ "_" ++ pyLower (pyStrip country)) = [] :=
      List.filter_eq_nil_iff.2 (fun p hp =>
        by simpa using List.any_eq_false.1 hexf p hp)
    have hcat1 : (check_and_create_partition country tableName schema true true
        cat).catalog
        = { schema := schema, name := tableName ++ "_" ++ pyLower (pyStrip country),
            bound := pyStrip country } :: cat := by
      simp [check_and_create_partition, hexf]
    refine ⟨?_, ?_, ?_, ?_⟩ <;>
      simp [check_and_create_partition, partitionNameOf, hcat1, hpn, hexf, hfilter]

/-- Witness for `check_and_create_partition_idempotent`: create the
partition for `" India "` in an empty catalog, then call again with
`"india"` while DDL would fail; the second call still returns `True`
without DDL and the catalog is unchanged, with exactly one partition. -/
theorem check_and_create_partition_idempotent_witness :
    ((check_and_create_partition "india" "customer_info" "stg" true false
        (check_and_create_partition " India " "customer_info" "stg" true true
          []).catalog).result = .returned true)
  ∧ ((check_and_create_partition "india" "customer_info" "stg" true false
        (check_and_create_partition " India " "customer_info" "stg" true true
          []).catalog).ddlIssued = false)
  ∧ ((check_and_create_partition "india" "customer_info" "stg" true false
        (check_and_create_partition " India " "customer_info" "stg" true true
          []).catalog).catalog
      = (check_and_create_partition " India " "customer_info" "stg" true true
          []).catalog)
  ∧ (((check_and_create_partition " India " "customer_info" "stg" true true
        []).catalog.filter (fun p => p.schema == "stg" &&
          p.name == partitionNameOf "customer_info" " India ")).length = 1) :=
  check_and_create_partition_idempotent " India " "india" "customer_info" "stg"
    [] false (by decide) (by decide)

/-! ### Staging loader (`ETLPipeline.load_stg`, src/etl_pipeline.py lines 41-101)

The function opens its own connection, strips the `Country` column of
the caller's DataFrame in place (`data['Country'] =
data['Country'].str.strip()`), runs the two partition-ensuring loops,
then executes `DELETE FROM {schema}.{table_name}` followed by
`conn.commit()`, and only then the bulk `COPY` followed by a second
`conn.commit()`. The two commits are separate transactions: a `COPY`
failure leaves the committed `DELETE` in place. The model carries the
caller's batch, the staging table's committed rows, and three failure
points: `connOk` (the `engine.raw_connection()`/`conn.cursor()` calls
at the top), `partsOk` (whether the partition-ensuring loops complete
without an escaping exception; their catalog effect is modelled by
`check_and_create_partition` above), and `copyOk` (the `COPY`). A batch
without a `Country` column raises `KeyError` before any mutation. -/

/-- `.str.strip()` on one cell: NaN (`none`) stays NaN. -/
def stripCell (c : Option String) : Option String := c.map pyStrip

/-- `data['Country'] = data['Country'].str.strip()`: strip every cell of
the `Country` column in place; `none` when the column is absent
(`KeyError`). -/
def stripCountryColumn (b : Batch) : Option Batch :=
  match b.header.findIdx? (fun s => s == "Country") with
  | none => none
  | some i =>
    some { b with rows := b.rows.map (fun r => r.set i (stripCell (r.getD i none))) }

/-- Observable outcome of one `load_stg` call: whether it returned
normally, the caller's DataFrame afterwards (the strip mutates it in
place), and the staging table's committed rows afterwards. -/
structure LoadStgOut where
  ok : Bool
  data : Batch
  staging : List (List (Option String))
  deriving DecidableEq, Repr

/-- `ETLPipeline.load_stg` as a transition on the caller's batch and the
staging table's committed contents. -/
def load_stg (data : Batch) (staging : List (List (Option String)))
    (connOk partsOk copyOk : Bool) : LoadStgOut :=
  if !connOk then
    { ok := false, data := data, staging := staging }
  else
    match stripCountryColumn data with
    | none => { ok := false, data := data, staging := staging }
    | some data2 =>
      if !partsOk then
        { ok := false, data := data2, staging := staging }
      else if copyOk then
        { ok := true, data := data2, staging := data2.rows }
      else
        { ok := false, data := data2, staging := [] }

/-- A concrete extracted batch: one row, country with surrounding
whitespace. -/
def batchEx : Batch :=
  { header := ["Customer_Name", "Country"], rows := [[some "Alex", some " India "]] }

/-- Concrete prior contents of the staging table. -/
def stagingEx : List (List (Option String)) := [[some "Priya", some "USA"]]

/-- C1, counterexample: with the prior batch committed in staging, a
`load_stg` call whose `COPY` fails leaves the staging table empty — the
separately committed `DELETE` has destroyed the prior contents even
though the new batch was never loaded. -/
theorem load_stg_copy_failure_loses_prior :
    (load_stg batchEx stagingEx true true false).staging = []
  ∧ (load_stg batchEx stagingEx true true false).ok = false
  ∧ stagingEx ≠ []
  ∧ batchEx.rows ≠ [] := by
  exact ⟨rfl, rfl, by decide, by decide⟩

/-- C1, amended: when the `COPY` step fails (schema mismatch or any
other database error), no row of the new batch is committed — but the
staging table's prior contents are lost, because the `DELETE` commits in
its own transaction before the `COPY`; the table is left empty. On
success the staging table holds exactly the stripped batch. -/
theorem load_stg_copy_failure_spec (data data2 : Batch)
    (staging : List (List (Option String)))
    (h : stripCountryColumn data = some data2) :
    ((load_stg data staging true true false).ok = false)
  ∧ ((load_stg data staging true true false).staging = [])
  ∧ ((load_stg data staging true true true).staging = data2.rows) := by
  refine ⟨?_, ?_, ?_⟩ <;> simp [load_stg, h]

/-- Witness for `load_stg_copy_failure_spec` at the concrete batch. -/
theorem load_stg_copy_failure_spec_witness :
    ((load_stg batchEx stagingEx true true false).ok = false)
  ∧ ((load_stg batchEx stagingEx true true false).staging = [])
  ∧ ((load_stg batchEx stagingEx true true true).staging
      = [[some "Alex", some "India"]]) :=
  load_stg_copy_failure_spec batchEx
    { header := ["Customer_Name", "Country"], rows := [[some "Alex", some "India"]] }
    stagingEx (by decide)

/-- C9, counterexample: a `load_stg` call that fails while establishing
its own database connection returns the caller's DataFrame untouched —
and that DataFrame is not whitespace-stripped (stripping it would change
it), so not every call leaves the `Country` column stripped. -/
theorem load_stg_conn_failure_no_strip :
    (load_stg batchEx stagingEx false true true).data = batchEx
  ∧ stripCountryColumn batchEx ≠ some batchEx :=
  ⟨rfl, by decide⟩

/-- C9, amended: every `load_stg` call that gets past establishing its
database connection — even one whose partition loop or `COPY` later
fails — has already mutated the caller's DataFrame in place, stripping
surrounding whitespace from every (non-NaN) cell of its `Country`
column; a call that fails to connect leaves the DataFrame untouched. -/
theorem load_stg_strips_country_in_place (data : Batch)
    (staging : List (List (Option String))) (partsOk copyOk : Bool) (i : Nat)
    (hi : data.header.findIdx? (fun s => s == "Country") = some i) :
    ((load_stg data staging true partsOk copyOk).data).header = data.header
  ∧ ((load_stg data staging true partsOk copyOk).data).rows
      = data.rows.map (fun r => r.set i (stripCell (r.getD i none))) := by
  have hs : stripCountryColumn data
      = some { data with
          rows := data.rows.map (fun r => r.set i (stripCell (r.getD i none))) } := by
    simp [stripCountryColumn, hi]
  cases partsOk <;> cases copyOk <;> simp [load_stg, hs]

/-- Witness for `load_stg_strips_country_in_place`: a call that fails
after the strip (failing partition loop and `COPY`) still leaves the
caller's batch stripped in place. -/
theorem load_stg_strips_country_in_place_witness :
    ((load_stg batchEx stagingEx true false false).data).header = batchEx.header
  ∧ ((load_stg batchEx stagingEx true false false).data).rows
      = batchEx.rows.map (fun r => r.set 1 (stripCell (r.getD 1 none))) :=
  load_stg_strips_country_in_place batchEx stagingEx false false 1 (by decide)

/-! ### Incremental merge engine (`ETLPipeline.incremental_load`,
src/etl_pipeline.py lines 102-172)

The merge is one SQL statement: a CTE selects from the staging table the
rows with `CURRENT_DATE - Last_Consulted_Date > 30` and numbers them
with `ROW_NUMBER() OVER (PARTITION BY Customer_ID ORDER BY
Last_Consulted_Date DESC)`, computing `Age` from `Date_of_Birth` and
`Days_since_last_consulted`; the rows with `rn = 1` are inserted into
the curated table, and `ON CONFLICT (Customer_ID, Country) DO UPDATE`
sets only `Last_Consulted_Date`, `Age` and `Days_since_last_consulted`
from the excluded row.

Dates are modelled as `Int` day numbers, so `CURRENT_DATE -
Last_Consulted_Date` is integer subtraction. `EXTRACT(YEAR FROM
AGE(Date_of_Birth))` is a PostgreSQL calendar builtin and is carried as
a parameter `age : Int → Int → Int` of current date and date of birth.
`ROW_NUMBER` tie-breaking is the store's stable row order, modelled as
list order: rank 1 of a partition is its first row of maximal
`Last_Consulted_Date`. Both tables are modelled as row lists; the
curated relation is unique on `(Customer_ID, Country)` only as far as
the code enforces it, so no such assumption is built into the model. -/

/-- One staging-table row, with the columns the merge statement reads. -/
structure StgRow where
  Customer_Name : String
  Customer_ID : String
  Customer_Open_Date : Int
  Last_Consulted_Date : Int
  Vaccination_Type : String
  Doctor_Consulted : String
  State : String
  Country : String
  Post_Code : String
  Date_of_Birth : Int
  Active_Customer : String
  deriving DecidableEq, Repr

/-- One curated-table row: the staging columns plus the derived
`Age` and `Days_since_last_consulted`. -/
structure CurRow where
  Customer_Name : String
  Customer_ID : String
  Customer_Open_Date : Int
  Last_Consulted_Date : Int
  Vaccination_Type : String
  Doctor_Consulted : String
  State : String
  Country : String
  Post_Code : String
  Date_of_Birth : Int
  Active_Customer : String
  Age : Int
  Days_since_last_consulted : Int
  deriving DecidableEq, Repr

/-- The CTE's `WHERE CURRENT_DATE - Last_Consulted_Date > 30` filter. -/
def eligibleRows (today : Int) (stg : List StgRow) : List StgRow :=
  stg.filter (fun r => 30 < today - r.Last_Consulted_Date)

/-- One step of scanning a `Customer_ID` partition in stable table
order: keep the row seen so far unless the next row's
`Last_Consulted_Date` is strictly larger. -/
def rank1Step (best : Option StgRow) (r : StgRow) : Option StgRow :=
  match best with
  | none => some r
  | some b => if b.Last_Consulted_Date < r.Last_Consulted_Date then some r else some b

/-- The `rn = 1` row of one `Customer_ID` partition: the first row (in
stable table order) carrying the maximal `Last_Consulted_Date`. -/
def rank1 (g : List StgRow) : Option StgRow :=
  g.foldl rank1Step none

/-- The distinct `Customer_ID` values of a row list. -/
def customerIds (rows : List StgRow) : List String :=
  (rows.map (fun r => r.Customer_ID)).dedup

/-- The SELECT list of the merge: copy the staging columns and compute
`Age` and `Days_since_last_consulted` as of `today`. -/
def toCurRow (age : Int → Int → Int) (today : Int) (r : StgRow) : CurRow :=
  { Customer_Name := r.Customer_Name
    Customer_ID := r.Customer_ID
    Customer_Open_Date := r.Customer_Open_Date
    Last_Consulted_Date := r.Last_Consulted_Date
    Vaccination_Type := r.Vaccination_Type
    Doctor_Consulted := r.Doctor_Consulted
    State := r.State
    Country := r.Country
    Post_Code := r.Post_Code
    Date_of_Birth := r.Date_of_Birth
    Active_Customer := r.Active_Customer
    Age := age today r.Date_of_Birth
    Days_since_last_consulted := today - r.Last_Consulted_Date }

/-- The rows of the `Customer_Updates` CTE that survive `WHERE rn = 1`:
one row per `Customer_ID` present among the eligible staging rows. -/
def customerUpdates (age : Int → Int → Int) (today : Int)
    (stg : List StgRow) : List CurRow :=
  (customerIds (eligibleRows today stg)).filterMap (fun cid =>
    (rank1 ((eligibleRows today stg).filter
      (fun r => r.Customer_ID == cid))).map (toCurRow age today))

/-- The `DO UPDATE SET` clause: update `Last_Consulted_Date`, `Age` and
`Days_since_last_consulted` from the excluded row, touching nothing
else. -/
def applyConflictUpdate (old new : CurRow) : CurRow :=
  { old with
    Last_Consulted_Date := new.Last_Consulted_Date
    Age := new.Age
    Days_since_last_consulted := new.Days_since_last_consulted }

/-- The `ON CONFLICT (Customer_ID, Country)` natural-key match. -/
def sameKey (a b : CurRow) : Bool :=
  a.Customer_ID == b.Customer_ID && a.Country == b.Country

/-- Upsert one row into the curated table: on a natural-key conflict,
apply the conflict update to the conflicting row(s); otherwise insert. -/
def upsertRow (t : List CurRow) (n : CurRow) : List CurRow :=
  if t.any (fun r => sameKey r n) then
    t.map (fun r => if sameKey r n then applyConflictUpdate r n else r)
  else
    t ++ [n]

/-- `ETLPipeline.incremental_load` on curated-table state `cur`: upsert
every `rn = 1` row of the CTE into the curated table. -/
def incremental_load (age : Int → Int → Int) (today : Int)
    (stg : List StgRow) (cur : List CurRow) : List CurRow :=
  (customerUpdates age today stg).foldl upsertRow cur

theorem foldl_rank1Step_some (g : List StgRow) (b : StgRow) :
    ∃ r, g.foldl rank1Step (some b) = some r ∧ (r = b ∨ r ∈ g) ∧
      b.Last_Consulted_Date ≤ r.Last_Consulted_Date ∧
      ∀ x ∈ g, x.Last_Consulted_Date ≤ r.Last_Consulted_Date := by
  induction g generalizing b with
  | nil => exact ⟨b, rfl, Or.inl rfl, le_refl _, by simp⟩
  | cons x t ih =>
    by_cases hx : b.Last_Consulted_Date < x.Last_Consulted_Date
    · rcases ih x with ⟨r, hr, hmem, hle, hall⟩
      refine ⟨r, ?_, ?_, le_trans (le_of_lt hx) hle, ?_⟩
      · simpa [rank1Step, hx] using hr
      · rcases hmem with rfl | h
        · exact Or.inr (List.mem_cons_self r t)
        · exact Or.inr (List.mem_cons_of_mem x h)
      · intro y hy
        rcases List.mem_cons.1 hy with rfl | h
        · exact hle
        · exact hall y h
    · rcases ih b with ⟨r, hr, hmem, hle, hall⟩
      refine ⟨r, ?_, ?_, hle, ?_⟩
      · simpa [rank1Step, hx] using hr
      · rcases hmem with rfl | h
        · exact Or.inl rfl
        · exact Or.inr (List.mem_cons_of_mem x h)
      · intro y hy
        rcases List.mem_cons.1 hy with rfl | h
        · exact le_trans (not_lt.1 hx) hle
        · exact hall y h

theorem rank1_spec (g : List StgRow) (hne : g ≠ []) :
    ∃ r, rank1 g = some r ∧ r ∈ g ∧
      ∀ x ∈ g, x.Last_Consulted_Date ≤ r.Last_Consulted_Date := by
  cases g with
  | nil => exact absurd rfl hne
  | cons x t =>
    rcases foldl_rank1Step_some t x with ⟨r, hr, hmem, hle, hall⟩
    refine ⟨r, ?_, ?_, ?_⟩
    · simpa [rank1, rank1Step] using hr
    · rcases hmem with rfl | h
      · exact List.mem_cons_self r t
      · exact List.mem_cons_of_mem x h
    · intro y hy
      rcases List.mem_cons.1 hy with rfl | h
      · exact hle
      · exact hall y h

theorem rank1_mem {g : List StgRow} {r : StgRow} (h : rank1 g = some r) : r ∈ g := by
  cases g with
  | nil => simp [rank1] at h
  | cons x t =>
    rcases rank1_spec (x :: t) (by simp) with ⟨s, hs, hmem, _⟩
    rw [h] at hs
    exact (Option.some_injective _ hs) ▸ hmem

theorem rank1_max {g : List StgRow} {r : StgRow} (h : rank1 g = some r) :
    ∀ x ∈ g, x.Last_Consulted_Date ≤ r.Last_Consulted_Date := by
  cases g with
  | nil => simp [rank1] at h
  | cons x t =>
    rcases rank1_spec (x :: t) (by simp) with ⟨s, hs, _, hmax⟩
    rw [h] at hs
    exact (Option.some_injective _ hs) ▸ hmax

theorem mem_customerIds {cid : String} {rows : List StgRow} :
    cid ∈ customerIds rows ↔ ∃ r ∈ rows, r.Customer_ID = cid := by
  simp [customerIds, List.mem_dedup, List.mem_map]

theorem customerIds_nodup (rows : List StgRow) : (customerIds rows).Nodup :=
  List.nodup_dedup _

theorem rank1_map_cid (age : Int → Int → Int) (today : Int) (stg : List StgRow) :
    ∀ (i : String) (c : CurRow),
      ((rank1 ((eligibleRows today stg).filter
        (fun r => r.Customer_ID == i))).map (toCurRow age today)) = some c →
      c.Customer_ID = i := by
  intro i c h
  rcases Option.map_eq_some'.1 h with ⟨r, hr, rfl⟩
  have hmem := rank1_mem hr
  have hpred := (List.mem_filter.1 hmem).2
  exact eq_of_beq hpred

theorem filterMap_key_count (ids : List String) (f : String → Option CurRow)
    (hf : ∀ i c, f i = some c → c.Customer_ID = i) (hnd : ids.Nodup)
    (cid : String) :
    ((ids.filterMap f).filter (fun c => c.Customer_ID == cid)).length
      = if cid ∈ ids ∧ (f cid).isSome then 1 else 0 := by
  induction ids with
  | nil => simp
  | cons i t ih =>
    have hni : i ∉ t := (List.nodup_cons.1 hnd).1
    have hnd2 : t.Nodup := (List.nodup_cons.1 hnd).2
    cases hfi : f i with
    | none =>
      rw [List.filterMap_cons_none hfi, ih hnd2]
      by_cases hci : cid = i
      · subst hci
        simp [hni, hfi]
      · simp [hci]
    | some c =>
      have hc : c.Customer_ID = i := hf i c hfi
      rw [List.filterMap_cons_some hfi, List.filter_cons]
      by_cases hci : cid = i
      · subst hci
        have hcc : (c.Customer_ID == cid) = true := beq_iff_eq.2 hc
        rw [if_pos hcc, List.length_cons, ih hnd2]
        simp [hni, hfi]
      · have hcc : (c.Customer_ID == cid) = false :=
          beq_eq_false_iff_ne.2 (by rw [hc]; exact Ne.symm hci)
        rw [if_neg (by simp [hcc]), ih hnd2]
        simp [hci]

/-- C4: the merge statement's insert set (`customerUpdates`) draws only
from staging rows whose last-consulted date is more than 30 days before
the current date, holds exactly one row for each `Customer_ID` that has
an eligible staging row (and none for any other), and that row carries
the greatest `Last_Consulted_Date` among the customer's eligible rows
(rank 1 under the descending order). -/
theorem customerUpdates_spec (age : Int → Int → Int) (today : Int)
    (stg : List StgRow) :
    (∀ c ∈ customerUpdates age today stg,
      ∃ r ∈ stg, 30 < today - r.Last_Consulted_Date ∧ c = toCurRow age today r)
  ∧ (∀ cid : String,
      ((customerUpdates age today stg).filter
        (fun c => c.Customer_ID == cid)).length
      = if (eligibleRows today stg).any (fun r => r.Customer_ID == cid)
        then 1 else 0)
  ∧ (∀ c ∈ customerUpdates age today stg, ∀ r ∈ eligibleRows today stg,
      r.Customer_ID = c.Customer_ID →
      r.Last_Consulted_Date ≤ c.Last_Consulted_Date) := by
  refine ⟨?_, ?_, ?_⟩
  · intro c hc
    rcases List.mem_filterMap.1 hc with ⟨cid, _, hcid⟩
    rcases Option.map_eq_some'.1 hcid with ⟨r, hr, rfl⟩
    have hmem := rank1_mem hr
    have helig := (List.mem_filter.1 hmem).1
    have hstg := (List.mem_filter.1 helig).1
    have hdays := (List.mem_filter.1 helig).2
    exact ⟨r, hstg, by simpa using hdays, rfl⟩
  · intro cid
    rw [customerUpdates, filterMap_key_count (customerIds (eligibleRows today stg))
      _ (rank1_map_cid age today stg) (customerIds_nodup _) cid]
    by_cases hany : (eligibleRows today stg).any
        (fun r => r.Customer_ID == cid) = true
    · rcases List.any_eq_true.1 hany with ⟨r, hr, hrc⟩
      have hin : cid ∈ customerIds (eligibleRows today stg) :=
        mem_customerIds.2 ⟨r, hr, eq_of_beq hrc⟩
      have hgrp : (eligibleRows today stg).filter
          (fun r => r.Customer_ID == cid) ≠ [] :=
        List.ne_nil_of_mem (List.mem_filter.2 ⟨hr, hrc⟩)
      rcases rank1_spec _ hgrp with ⟨s, hs, _, _⟩
      rw [if_pos hany, if_pos ⟨hin, by simp [hs]⟩]
    · have hany2 : (eligibleRows today stg).any
          (fun r => r.Customer_ID == cid) = false := Bool.eq_false_iff.2 hany
      rw [if_neg hany]
      rw [if_neg]
      rintro ⟨hin, _⟩
      rcases mem_customerIds.1 hin with ⟨r, hr, hrc⟩
      exact hany (List.any_eq_true.2 ⟨r, hr, beq_iff_eq.2 hrc⟩)
  · intro c hc r hr hrc
    rcases List.mem_filterMap.1 hc with ⟨cid, _, hcid⟩
    rcases Option.map_eq_some'.1 hcid with ⟨s, hs, rfl⟩
    have hscid : s.Customer_ID = cid := by
      have := (List.mem_filter.1 (rank1_mem hs)).2
      exact eq_of_beq this
    have hrin : r ∈ (eligibleRows today stg).filter
        (fun x => x.Customer_ID == cid) := by
      refine List.mem_filter.2 ⟨hr, ?_⟩
      have : r.Customer_ID = cid := by
        simpa [toCurRow, hscid] using hrc
      exact beq_iff_eq.2 this
    exact rank1_max hs r hrin

/-- A concrete age function standing in for `EXTRACT(YEAR FROM AGE(..))`
in witnesses. -/
def ageEx : Int → Int → Int := fun today dob => (today - dob) / 365

/-- Concrete staging row: customer 1, last consulted 50 days before day
100. -/
def stgRowA1 : StgRow :=
  { Customer_Name := "Alex", Customer_ID := "1", Customer_Open_Date := 0,
    Last_Consulted_Date := 50, Vaccination_Type := "MVD",
    Doctor_Consulted := "Paul", State := "SA", Country := "USA",
    Post_Code := "123", Date_of_Birth := -6000, Active_Customer := "A" }

/-- Concrete staging row: customer 1 again, last consulted 40 days
before day 100 (the most recent eligible observation). -/
def stgRowA2 : StgRow :=
  { stgRowA1 with Last_Consulted_Date := 60 }

/-- Concrete staging row: customer 2, last consulted only 10 days before
day 100, hence not eligible. -/
def stgRowB : StgRow :=
  { Customer_Name := "Bo", Customer_ID := "2", Customer_Open_Date := 0,
    Last_Consulted_Date := 90, Vaccination_Type := "MVD",
    Doctor_Consulted := "Paul", State := "TN", Country := "IND",
    Post_Code := "456", Date_of_Birth := -3000, Active_Customer := "A" }

/-- Concrete staging table contents. -/
def stgEx : List StgRow := [stgRowA1, stgRowA2, stgRowB]

/-- Witness for `customerUpdates_spec`: the single merged row of the
concrete staging table comes from an eligible staging row. -/
theorem customerUpdates_spec_witness :
    ∃ r ∈ stgEx, 30 < (100 : Int) - r.Last_Consulted_Date
      ∧ toCurRow ageEx 100 stgRowA2 = toCurRow ageEx 100 r :=
  (customerUpdates_spec ageEx 100 stgEx).1 (toCurRow ageEx 100 stgRowA2)
    (by decide)

/-- C5: when an incoming merged row `n` conflicts with an existing
curated row `r` on the natural key, the upsert replaces nothing: it maps
`r` to a row whose `Last_Consulted_Date`, `Age` and
`Days_since_last_consulted` come from `n` while each of the ten other
columns keeps `r`'s value, and the table neither gains nor loses rows. -/
theorem upsertRow_updates_only_merge_columns (t : List CurRow) (n r : CurRow)
    (hr : r ∈ t) (hid : r.Customer_ID = n.Customer_ID)
    (hco : r.Country = n.Country) :
    applyConflictUpdate r n ∈ upsertRow t n
  ∧ (upsertRow t n).length = t.length
  ∧ (applyConflictUpdate r n).Last_Consulted_Date = n.Last_Consulted_Date
  ∧ (applyConflictUpdate r n).Age = n.Age
  ∧ (applyConflictUpdate r n).Days_since_last_consulted
      = n.Days_since_last_consulted
  ∧ (applyConflictUpdate r n).Customer_Name = r.Customer_Name
  ∧ (applyConflictUpdate r n).Customer_ID = r.Customer_ID
  ∧ (applyConflictUpdate r n).Customer_Open_Date = r.Customer_Open_Date
  ∧ (applyConflictUpdate r n).Vaccination_Type = r.Vaccination_Type
  ∧ (applyConflictUpdate r n).Doctor_Consulted = r.Doctor_Consulted
  ∧ (applyConflictUpdate r n).State = r.State
  ∧ (applyConflictUpdate r n).Country = r.Country
  ∧ (applyConflictUpdate r n).Post_Code = r.Post_Code
  ∧ (applyConflictUpdate r n).Date_of_Birth = r.Date_of_Birth
  ∧ (applyConflictUpdate r n).Active_Customer = r.Active_Customer := by
  have hkey : sameKey r n = true := by simp [sameKey, hid, hco]
  have hany : t.any (fun x => sameKey x n) = true :=
    List.any_eq_true.2 ⟨r, hr, hkey⟩
  refine ⟨?_, ?_, rfl, rfl, rfl, rfl, rfl, rfl, rfl, rfl, rfl, rfl, rfl,
    rfl, rfl⟩
  · rw [upsertRow, if_pos hany]
    exact List.mem_map.2 ⟨r, hr, by rw [if_pos hkey]⟩
  · rw [upsertRow, if_pos hany, List.length_map]

/-- Concrete curated row with customer 1's old observation. -/
def curRowEx : CurRow := toCurRow ageEx 100 stgRowA1

/-- Concrete incoming merged row for the same (customer, country). -/
def newRowEx : CurRow := toCurRow ageEx 135 stgRowA2

/-- Witness for `upsertRow_updates_only_merge_columns` at a concrete
one-row curated table and a conflicting merged row. -/
theorem upsertRow_updates_only_merge_columns_witness :
    applyConflictUpdate curRowEx newRowEx ∈ upsertRow [curRowEx] newRowEx
  ∧ (upsertRow [curRowEx] newRowEx).length = [curRowEx].length
  ∧ (applyConflictUpdate curRowEx newRowEx).Last_Consulted_Date
      = newRowEx.Last_Consulted_Date
  ∧ (applyConflictUpdate curRowEx newRowEx).Age = newRowEx.Age
  ∧ (applyConflictUpdate curRowEx newRowEx).Days_since_last_consulted
      = newRowEx.Days_since_last_consulted
  ∧ (applyConflictUpdate curRowEx newRowEx).Customer_Name
      = curRowEx.Customer_Name
  ∧ (applyConflictUpdate curRowEx newRowEx).Customer_ID
      = curRowEx.Customer_ID
  ∧ (applyConflictUpdate curRowEx newRowEx).Customer_Open_Date
      = curRowEx.Customer_Open_Date
  ∧ (applyConflictUpdate curRowEx newRowEx).Vaccination_Type
      = curRowEx.Vaccination_Type
  ∧ (applyConflictUpdate curRowEx newRowEx).Doctor_Consulted
      = curRowEx.Doctor_Consulted
  ∧ (applyConflictUpdate curRowEx newRowEx).State = curRowEx.State
  ∧ (applyConflictUpdate curRowEx newRowEx).Country = curRowEx.Country
  ∧ (applyConflictUpdate curRowEx newRowEx).Post_Code = curRowEx.Post_Code
  ∧ (applyConflictUpdate curRowEx newRowEx).Date_of_Birth
      = curRowEx.Date_of_Birth
  ∧ (applyConflictUpdate curRowEx newRowEx).Active_Customer
      = curRowEx.Active_Customer :=
  upsertRow_updates_only_merge_columns [curRowEx] newRowEx curRowEx
    (by decide) (by decide) (by decide)

/-- After a merge touched key `n`, the curated table is saturated for
`n`: some row carries `n`'s natural key, and every row carrying it
already holds `n`'s three merge columns, so upserting `n` again changes
nothing. -/
def SaturatedFor (n : CurRow) (t : List CurRow) : Prop :=
  (∃ r ∈ t, sameKey r n = true) ∧
    ∀ r ∈ t, sameKey r n = true → applyConflictUpdate r n = r

theorem applyConflictUpdate_self (n : CurRow) :
    applyConflictUpdate n n = n := by
  cases n
  rfl

theorem applyConflictUpdate_idem (r n : CurRow) :
    applyConflictUpdate (applyConflictUpdate r n) n = applyConflictUpdate r n := rfl

theorem sameKey_applyConflictUpdate (r n m : CurRow) :
    sameKey (applyConflictUpdate r n) m = sameKey r m := rfl

theorem sameKey_keys {r n : CurRow} (h : sameKey r n = true) :
    r.Customer_ID = n.Customer_ID ∧ r.Country = n.Country := by
  simpa [sameKey, Bool.and_eq_true, beq_iff_eq] using h

theorem sameKey_false_of_ne {r n m : CurRow} (h : sameKey r n = true)
    (hne : n.Customer_ID ≠ m.Customer_ID) : sameKey r m = false := by
  by_cases hrm : sameKey r m = true
  · exact absurd ((sameKey_keys h).1 ▸ (sameKey_keys hrm).1) hne
  · exact Bool.eq_false_iff.2 hrm

theorem saturated_after_upsert (t : List CurRow) (n : CurRow) :
    SaturatedFor n (upsertRow t n) := by
  by_cases hany : t.any (fun r => sameKey r n) = true
  · constructor
    · rcases List.any_eq_true.1 hany with ⟨r, hr, hkey⟩
      refine ⟨applyConflictUpdate r n, ?_, ?_⟩
      · rw [upsertRow, if_pos hany]
        exact List.mem_map.2 ⟨r, hr, by rw [if_pos hkey]⟩
      · rw [sameKey_applyConflictUpdate]
        exact hkey
    · intro s hs hk
      rw [upsertRow, if_pos hany] at hs
      rcases List.mem_map.1 hs with ⟨r, _, heq⟩
      by_cases hkr : sameKey r n = true
      · rw [if_pos hkr] at heq
        rw [← heq]
        exact applyConflictUpdate_idem r n
      · rw [if_neg hkr] at heq
        exact absurd (heq ▸ hk) hkr
  · have hany2 : t.any (fun r => sameKey r n) = false := Bool.eq_false_iff.2 hany
    constructor
    · refine ⟨n, ?_, by simp [sameKey]⟩
      rw [upsertRow, hany2]
      simp
    · intro s hs hk
      rw [upsertRow, hany2] at hs
      simp only [Bool.false_eq_true, if_false, List.mem_append,
        List.mem_singleton] at hs
      rcases hs with hst | rfl
      · exact absurd hk (by simpa using List.any_eq_false.1 hany2 s hst)
      · exact applyConflictUpdate_self s

theorem saturated_preserved {n m : CurRow} {t : List CurRow}
    (hs : SaturatedFor n t) (hnm : n.Customer_ID ≠ m.Customer_ID) :
    SaturatedFor n (upsertRow t m) := by
  obtain ⟨⟨r0, hr0, hk0⟩, hupd⟩ := hs
  have hk0m : sameKey r0 m = false := sameKey_false_of_ne hk0 hnm
  by_cases hany : t.any (fun r => sameKey r m) = true
  · constructor
    · refine ⟨r0, ?_, hk0⟩
      rw [upsertRow, if_pos hany]
      exact List.mem_map.2 ⟨r0, hr0, by rw [if_neg (by simp [hk0m])]⟩
    · intro s hs hk
      rw [upsertRow, if_pos hany] at hs
      rcases List.mem_map.1 hs with ⟨r, hrt, heq⟩
      by_cases hkr : sameKey r m = true
      · rw [if_pos hkr] at heq
        have hkn : sameKey r n = true := by
          rw [← sameKey_applyConflictUpdate r m n, heq]
          exact hk
        exact absurd ((sameKey_keys hkn).1.symm.trans (sameKey_keys hkr).1) hnm
      · rw [if_neg hkr] at heq
        exact heq ▸ hupd r hrt (heq ▸ hk)
  · have hany2 : t.any (fun r => sameKey r m) = false := Bool.eq_false_iff.2 hany
    constructor
    · refine ⟨r0, ?_, hk0⟩
      rw [upsertRow, hany2]
      simp only [Bool.false_eq_true, if_false, List.mem_append]
      exact Or.inl hr0
    · intro s hs hk
      rw [upsertRow, hany2] at hs
      simp only [Bool.false_eq_true, if_false, List.mem_append,
        List.mem_singleton] at hs
      rcases hs with hst | rfl
      · exact hupd s hst hk
      · exact absurd ((sameKey_keys hk).1) (Ne.symm hnm)

theorem upsert_saturated_id {n : CurRow} {t : List CurRow}
    (hs : SaturatedFor n t) : upsertRow t n = t := by
  obtain ⟨⟨r0, hr0, hk0⟩, hupd⟩ := hs
  have hany : t.any (fun r => sameKey r n) = true :=
    List.any_eq_true.2 ⟨r0, hr0, hk0⟩
  rw [upsertRow, if_pos hany]
  have hid : ∀ r ∈ t, (if sameKey r n then applyConflictUpdate r n else r) = r := by
    intro r hr
    by_cases hk : sameKey r n = true
    · rw [if_pos hk]
      exact hupd r hr hk
    · rw [if_neg hk]
  rw [List.map_congr_left hid]
  exact List.map_id t

theorem foldl_upsert_saturated {us : List CurRow} {t : List CurRow} {n : CurRow}
    (hs : SaturatedFor n t) (hd : ∀ m ∈ us, n.Customer_ID ≠ m.Customer_ID) :
    SaturatedFor n (us.foldl upsertRow t) := by
  induction us generalizing t with
  | nil => exact hs
  | cons m rest ih =>
    rw [List.foldl_cons]
    exact ih (saturated_preserved hs (hd m (List.mem_cons_self m rest)))
      (fun x hx => hd x (List.mem_cons_of_mem m hx))

theorem all_saturated {us : List CurRow} (t : List CurRow)
    (hpw : us.Pairwise (fun a b => a.Customer_ID ≠ b.Customer_ID)) :
    ∀ n ∈ us, SaturatedFor n (us.foldl upsertRow t) := by
  induction us generalizing t with
  | nil => intro n hn; cases hn
  | cons m rest ih =>
    intro n hn
    rw [List.foldl_cons]
    rcases List.mem_cons.1 hn with rfl | hn2
    · exact foldl_upsert_saturated (saturated_after_upsert t n)
        (List.pairwise_cons.1 hpw).1
    · exact ih (upsertRow t m) (List.pairwise_cons.1 hpw).2 n hn2

theorem foldl_upsert_id {us : List CurRow} {t : List CurRow}
    (h : ∀ n ∈ us, SaturatedFor n t) : us.foldl upsertRow t = t := by
  induction us with
  | nil => rfl
  | cons n rest ih =>
    rw [List.foldl_cons, upsert_saturated_id (h n (List.mem_cons_self n rest))]
    exact ih (fun x hx => h x (List.mem_cons_of_mem n hx))

theorem filterMap_pairwise_keys (ids : List String) (f : String → Option CurRow)
    (hf : ∀ i c, f i = some c → c.Customer_ID = i) (hnd : ids.Nodup) :
    (ids.filterMap f).Pairwise (fun a b => a.Customer_ID ≠ b.Customer_ID) := by
  induction ids with
  | nil => simp
  | cons i t ih =>
    have hni : i ∉ t := (List.nodup_cons.1 hnd).1
    have hnd2 : t.Nodup := (List.nodup_cons.1 hnd).2
    cases hfi : f i with
    | none =>
      rw [List.filterMap_cons_none hfi]
      exact ih hnd2
    | some c =>
      rw [List.filterMap_cons_some hfi]
      refine List.pairwise_cons.2 ⟨?_, ih hnd2⟩
      intro b hb
      rcases List.mem_filterMap.1 hb with ⟨j, hj, hjb⟩
      rw [hf i c hfi, hf j b hjb]
      exact fun hij => hni (hij ▸ hj)

theorem customerUpdates_pairwise (age : Int → Int → Int) (today : Int)
    (stg : List StgRow) :
    (customerUpdates age today stg).Pairwise
      (fun a b => a.Customer_ID ≠ b.Customer_ID) :=
  filterMap_pairwise_keys _ _ (rank1_map_cid age today stg)
    (customerIds_nodup _)

/-- C7: with the staging table and current date fixed, running the merge
a second time maps every natural key's curated row to itself — the
second `incremental_load` is the identity on the table the first one
produced, whatever the prior curated contents were. -/
theorem incremental_load_idempotent (age : Int → Int → Int) (today : Int)
    (stg : List StgRow) (cur : List CurRow) :
    incremental_load age today stg (incremental_load age today stg cur)
      = incremental_load age today stg cur := by
  rw [incremental_load, incremental_load]
  exact foldl_upsert_id (all_saturated cur (customerUpdates_pairwise age today stg))

end ETL
